import Mathlib

/-!
Verification of the `download-website` repository: a shallow embedding of
the two downloader variants (`download_site.py`, static crawler, and
`download_site_playwright.py`, render-mode capture) together with proofs
about the crawl/fetch/rewrite engine.

The embedding follows the source line by line:
* the URL helpers model CPython `urllib.parse` (`urlsplit`, `urlparse`,
  `urljoin`) as used by the code, including the "Invalid IPv6 URL"
  `ValueError`, represented by the `parses` predicate;
* the filesystem and the network are explicit state / oracle parameters;
* Python exceptions are modelled with `Except`, carrying the state at the
  point of the raise (side effects performed before the raise persist).
-/

namespace DlSite

/-! ## CPython `urllib.parse` model -/

/-- `s.startswith(pre)` on strings, computed on the character lists. -/
def strStarts (s pre : String) : Bool :=
  pre.data.isPrefixOf s.data

/-- `c in s` membership, computed on the character list. -/
def strContains (s : String) (c : Char) : Bool :=
  s.data.contains c

/-- Character-wise map, computed on the character list. -/
def strMap (f : Char → Char) (s : String) : String :=
  String.mk (s.data.map f)

/-- `s[n:]` on characters. -/
def strDrop (s : String) (n : Nat) : String :=
  String.mk (s.data.drop n)

/-- Split at every occurrence of `c`, keeping empty pieces (Python
`s.split(c)` for a one-character separator). -/
def splitChar (c : Char) : List Char → List (List Char)
  | [] => [[]]
  | x :: xs =>
    if x = c then [] :: splitChar c xs
    else
      match splitChar c xs with
      | [] => [[x]]
      | a :: rest => (x :: a) :: rest

/-- String version of `splitChar`. -/
def strSplit (s : String) (c : Char) : List String :=
  (splitChar c s.data).map String.mk

/-- `sep.join(l)`. -/
def strJoin (sep : String) : List String → String
  | [] => ""
  | [x] => x
  | x :: y :: rest => x ++ sep ++ strJoin sep (y :: rest)

/-- `s.endswith(suf)` on strings, computed on the character lists. -/
def strEnds (s suf : String) : Bool :=
  suf.data.reverse.isPrefixOf s.data.reverse

/-- Characters allowed in a URL scheme after the first (CPython `scheme_chars`). -/
def isSchemeChar (c : Char) : Bool :=
  c.isAlpha || c.isDigit || c == '+' || c == '-' || c == '.'

/-- Split a character list at the first occurrence of `c`:
`none` when `c` does not occur, otherwise `(before, after)` with `c` removed. -/
def splitFirst (c : Char) : List Char → Option (List Char × List Char)
  | [] => none
  | x :: xs =>
    if x = c then some ([], xs)
    else match splitFirst c xs with
      | none => none
      | some (a, b) => some (x :: a, b)

/-- Result of CPython `urlsplit` (no params component). -/
structure SplitResult where
  scheme : String
  netloc : String
  path : String
  query : String
  fragment : String
deriving Repr, DecidableEq

/-- Scheme extraction of CPython `urlsplit`: the text before the first `':'`
becomes the (lowercased) scheme when it is nonempty, starts with an ASCII
letter and contains only scheme characters. Returns `(scheme, rest)`. -/
def splitScheme (l : List Char) : List Char × List Char :=
  match splitFirst ':' l with
  | none => ([], l)
  | some (bef, aft) =>
    match bef with
    | [] => ([], l)
    | c :: _ =>
      if c.isAlpha && bef.all isSchemeChar then (bef.map Char.toLower, aft)
      else ([], l)

/-- Netloc extraction: when the remainder begins with `//`, the netloc runs up
to the next `'/'`, `'?'` or `'#'`. Returns `(netloc, rest)`. -/
def splitNetloc (l : List Char) : List Char × List Char :=
  match l with
  | '/' :: '/' :: rest =>
    (rest.takeWhile (fun c => ¬(c = '/' ∨ c = '?' ∨ c = '#')),
     rest.dropWhile (fun c => ¬(c = '/' ∨ c = '?' ∨ c = '#')))
  | _ => ([], l)

/-- Core of CPython `urlsplit` with a default scheme, ignoring the
"Invalid IPv6 URL" check (see `parses`). -/
def urlsplitCore (url : String) (defaultScheme : String := "") : SplitResult :=
  let (sch, rest) := splitScheme url.data
  let scheme := if sch.isEmpty then defaultScheme else String.mk sch
  let (nl, rest) := splitNetloc rest
  let (rest, frag) :=
    match splitFirst '#' rest with
    | none => (rest, [])
    | some (a, b) => (a, b)
  let (path, query) :=
    match splitFirst '?' rest with
    | none => (rest, [])
    | some (a, b) => (a, b)
  ⟨scheme, String.mk nl, String.mk path, String.mk query, String.mk frag⟩

/-- CPython `urlsplit` raises `ValueError("Invalid IPv6 URL")` when the netloc
contains `'['` without `']'` or vice versa. `parses url = true` means the parse
succeeds without raising. -/
def parses (url : String) : Bool :=
  let nl := (urlsplitCore url).netloc
  (strContains nl '[') = (strContains nl ']')

/-- CPython `_splitparams`: split `;params` off the last path segment.
Only the path part is returned (the code never reads `params` separately,
it only matters for `urljoin`'s emptiness tests, handled there). -/
def splitparams (p : String) : String × String :=
  if strContains p '/' then
    -- find ';' at or after the last '/'
    let segs := p.data
    let lastSlash := (segs.length - 1) - (segs.reverse.takeWhile (· ≠ '/')).length
    let tail := segs.drop lastSlash
    match splitFirst ';' tail with
    | none => (p, "")
    | some (a, b) => (String.mk (segs.take lastSlash ++ a), String.mk b)
  else
    match splitFirst ';' p.data with
    | none => (p, "")
    | some (a, b) => (String.mk a, String.mk b)

/-- Result of CPython `urlparse` (path with `;params` split off). -/
structure ParseResult where
  scheme : String
  netloc : String
  path : String
  params : String
  query : String
  fragment : String
deriving Repr, DecidableEq

/-- CPython `urlparse` on top of `urlsplitCore`. -/
def urlparseCore (url : String) (defaultScheme : String := "") : ParseResult :=
  let s := urlsplitCore url defaultScheme
  if strContains s.path ';' then
    let (p, par) := splitparams s.path
    ⟨s.scheme, s.netloc, p, par, s.query, s.fragment⟩
  else
    ⟨s.scheme, s.netloc, s.path, "", s.query, s.fragment⟩

/-- CPython `urlunparse`/`urlunsplit` reassembly. -/
def urlunparse (r : ParseResult) : String :=
  let url := if r.params ≠ "" then r.path ++ ";" ++ r.params else r.path
  let url :=
    if r.netloc ≠ "" ∨ strStarts url "//" then
      "//" ++ r.netloc ++ (if url ≠ "" ∧ ¬ strStarts url "/" then "/" ++ url else url)
    else url
  let url := if r.scheme ≠ "" then r.scheme ++ ":" ++ url else url
  let url := if r.query ≠ "" then url ++ "?" ++ r.query else url
  if r.fragment ≠ "" then url ++ "#" ++ r.fragment else url

/-- Schemes of CPython `urllib.parse.uses_relative`. -/
def usesRelative : List String :=
  ["", "ftp", "http", "gopher", "nntp", "imap", "wais", "file", "https",
   "shttp", "mms", "prospero", "rtsp", "rtspu", "sftp", "svn", "svn+ssh",
   "ws", "wss"]

/-- Schemes of CPython `urllib.parse.uses_netloc`. -/
def usesNetloc : List String :=
  ["", "ftp", "http", "gopher", "nntp", "telnet", "imap", "wais", "file",
   "mms", "https", "shttp", "snews", "prospero", "rtsp", "rtspu", "rsync",
   "svn", "svn+ssh", "sftp", "nfs", "git", "git+ssh", "ws", "wss"]

/-- RFC-3986 style segment resolution loop of CPython `urljoin`. -/
def resolveSegments : List String → List String → List String
  | acc, [] => acc
  | acc, ".." :: rest => resolveSegments acc.dropLast rest
  | acc, "." :: rest => resolveSegments acc rest
  | acc, seg :: rest => resolveSegments (acc ++ [seg]) rest

/-- Core of CPython `urljoin` for nonempty `base` and `url`
(parse errors handled by `urljoinOk`). -/
def urljoinCore (base url : String) : String :=
  let b := urlparseCore base
  let u := urlparseCore url b.scheme
  if ¬(u.scheme = b.scheme ∧ usesRelative.contains u.scheme) then url
  else if usesNetloc.contains u.scheme ∧ u.netloc ≠ "" then
    urlunparse ⟨u.scheme, u.netloc, u.path, u.params, u.query, u.fragment⟩
  else
    let netloc := if usesNetloc.contains u.scheme then b.netloc else u.netloc
    if u.path = "" ∧ u.params = "" then
      let query := if u.query = "" then b.query else u.query
      urlunparse ⟨u.scheme, netloc, b.path, b.params, query, u.fragment⟩
    else
      let baseParts := strSplit b.path '/'
      let baseParts := if baseParts.getLast? = some "" then baseParts else baseParts.dropLast
      let segments :=
        if strStarts u.path "/" then strSplit u.path '/'
        else
          let segs := baseParts ++ strSplit u.path '/'
          match segs with
          | [] => []
          | [x] => [x]
          | x :: y :: xs =>
            x :: (((y :: xs).dropLast.filter (· ≠ "")) ++ [(y :: xs).getLast (by simp)])
      let resolved := resolveSegments [] segments
      let resolved :=
        if segments.getLast? = some "." ∨ segments.getLast? = some ".." then resolved ++ [""]
        else resolved
      let joinedPath := strJoin "/" resolved
      let joinedPath := if joinedPath = "" then "/" else joinedPath
      urlunparse ⟨u.scheme, netloc, joinedPath, u.params, u.query, u.fragment⟩

/-- CPython `urljoin`, including the empty-argument short circuits. -/
def urljoin (base url : String) : String :=
  if base = "" then url
  else if url = "" then base
  else urljoinCore base url

/-- `urljoin base url` raises only when it actually parses its arguments
(both nonempty) and one of them fails the IPv6 bracket check. -/
def urljoinOk (base url : String) : Bool :=
  base = "" || url = "" || (parses base && parses url)

/-- `url.split('#')[0]`: the part before the first `'#'`. -/
def stripFragment (url : String) : String :=
  match splitFirst '#' url.data with
  | none => url
  | some (a, _) => String.mk a

/-! ## `os.path` model (POSIX) -/

/-- Two-argument `os.path.join`. -/
def pathJoin2 (a b : String) : String :=
  if strStarts b "/" then b
  else if a = "" ∨ strEnds a "/" then a ++ b
  else a ++ "/" ++ b

/-- Variadic `os.path.join` folded left. -/
def pathJoin (a : String) (rest : List String) : String :=
  rest.foldl pathJoin2 a

/-- `posixpath.dirname`. -/
def dirname (p : String) : String :=
  if strContains p '/' then
    let tailLen := (p.data.reverse.takeWhile (· ≠ '/')).length
    let head := p.data.take (p.data.length - tailLen)
    if head ≠ [] ∧ ¬ head.all (· = '/') then
      String.mk (head.reverse.dropWhile (· = '/')).reverse
    else String.mk head
  else ""

/-- `os.path.splitext`: split off the extension at the last `'.'` of the last
segment; leading dots of the filename do not start an extension. -/
def splitext (p : String) : String × String :=
  let l := p.data
  let tailLen := (l.reverse.takeWhile (· ≠ '/')).length
  let fname := l.drop (l.length - tailLen)
  let extLen := (fname.reverse.takeWhile (· ≠ '.')).length
  if extLen = fname.length then (p, "")
  else
    -- there is a '.' in the filename at position fname.length - extLen - 1
    let stemmed := fname.take (fname.length - extLen - 1)
    if stemmed.all (· = '.') then (p, "")
    else (String.mk (l.take (l.length - extLen - 1)), String.mk (l.drop (l.length - extLen - 1)))

/-- Length of the common leading run of two segment lists. -/
def commonLen : List String → List String → Nat
  | [], _ => 0
  | _ :: _, [] => 0
  | a :: as_, b :: bs => if a = b then commonLen as_ bs + 1 else 0

/-- `posixpath.relpath path start` for the dot-free relative paths the
downloader produces (the common `abspath` prefix cancels). -/
def relpath (path start : String) : String :=
  let pl := (strSplit path '/').filter (· ≠ "")
  let sl := (strSplit start '/').filter (· ≠ "")
  let i := commonLen pl sl
  let parts := List.replicate (sl.length - i) ".." ++ pl.drop i
  if parts = [] then "." else strJoin "/" parts

/-! ## Static downloader (`download_site.py`): path mapping and URL scoping -/

/-- Configuration of `WebsiteDownloader.__init__` (the fields the core reads). -/
structure SCfg where
  start_url : String
  output_dir : String
  max_depth : Nat
deriving Repr, DecidableEq

/-- `WebsiteDownloader.is_valid_url`: candidate and start URL share the same
`urlparse(...).netloc` (exact string comparison). -/
def is_valid_url (cfg : SCfg) (url : String) : Bool :=
  (urlparseCore url).netloc == (urlparseCore cfg.start_url).netloc

/-- The shared path normalization of both `get_local_path` variants: append
the default index filename to an empty or directory path, then strip one
leading slash. -/
def localPathPart (path0 : String) : String :=
  let path := if path0 = "" ∨ strEnds path0 "/" then path0 ++ "index.html" else path0
  if strStarts path "/" then strDrop path 1 else path

/-- `domain.replace(':', '_')` of both `get_local_path` variants. -/
def sanitizeDomain (d : String) : String :=
  strMap (fun c => if c = ':' then '_' else c) d

/-- `WebsiteDownloader.get_local_path`: output_dir/domain/path with default
index file, leading slash stripped and `':'` in the domain replaced; the
`except` branch (reachable only through `urlparse` raising) yields the
fixed fallback path. -/
def get_local_path (cfg : SCfg) (url : String) : String :=
  if ¬ parses url then pathJoin cfg.output_dir ["unknown_domain", "error.html"]
  else
    let p := urlparseCore url
    pathJoin cfg.output_dir [sanitizeDomain p.netloc, localPathPart p.path]

/-- `WebsiteDownloader.get_relative_path` (the `'\\'→'/'` replacement is the
identity on POSIX paths). -/
def get_relative_path (cfg : SCfg) (base_url target_url : String) : String :=
  relpath (get_local_path cfg target_url) (dirname (get_local_path cfg base_url))

/-! ## Static downloader: network, filesystem and crawl state -/

/-- An HTML document as the crawler reads it with BeautifulSoup: the attribute
values of `link[href]`, `script[src]`, `img[src]` and `a[href]` tags, in
document order. -/
structure Doc where
  cssLinks : List String
  scripts : List String
  imgs : List String
  anchors : List String
deriving Repr, DecidableEq

/-- A file on disk: a raw asset of a given byte size, or a persisted page. -/
inductive FsFile where
  | asset (size : Nat)
  | page (d : Doc)
deriving Repr, DecidableEq

/-- Streamed body of an HTTP response in `download_to_local`:
either all chunks arrive, or the transfer breaks after writing `written`
chunks with `missing` never delivered. -/
inductive BodyStream where
  | whole (chunks : List Nat)
  | broken (written missing : List Nat)
deriving Repr, DecidableEq

/-- Outcome of `self.session.get(url, stream=True)`:
a response with a status code and a body stream, or an exception. -/
inductive NetResult where
  | resp (status : Nat) (body : BodyStream)
  | raiseOnGet
deriving Repr, DecidableEq

/-- The full body size an HTTP response would have delivered. -/
def NetResult.fullSize : NetResult → Nat
  | .resp _ (.whole chunks) => chunks.sum
  | .resp _ (.broken written missing) => written.sum + missing.sum
  | .raiseOnGet => 0

/-- Mutable state of one `WebsiteDownloader` run: the visited-URL set, the log
of page `GET`s (with the depth at which they were issued), the log of asset
`GET`s issued by `download_to_local`, and the filesystem. -/
structure CState where
  visited : List String
  pageReqs : List (String × Nat)
  assetReqs : List String
  files : List (String × FsFile)
deriving Repr, DecidableEq

/-- `os.path.exists` against the run's filesystem. -/
def fileExists (s : CState) (p : String) : Bool :=
  s.files.any (·.1 = p)

/-- Empty state at the start of a run. -/
def initState : CState := ⟨[], [], [], []⟩

/-- `WebsiteDownloader.download_to_local`: skip empty / `data:` / non-HTTP
URLs, short-circuit when the mapped file exists, otherwise issue one `GET`.
On HTTP 200 the chunks are written straight to the final path; a broken
stream leaves the bytes written so far, and the cleanup removes the file only
when its size is 0. Returns the `bool` of the source. -/
def download_to_local (cfg : SCfg) (net : String → NetResult) (url : String)
    (s : CState) : Bool × CState :=
  if url = "" then (false, s)
  else if strStarts url "data:" ∨ ¬(strStarts url "http://" ∨ strStarts url "https://") then
    (false, s)
  else if fileExists s (get_local_path cfg url) then (true, s)
  else
    -- from here on the `GET` has been issued, so `url` joins the request log
    match net url with
    | .resp status body =>
      if status = 200 then
        match body with
        | .whole chunks =>
          (true, { s with
            assetReqs := s.assetReqs ++ [url],
            files := s.files ++ [(get_local_path cfg url, .asset chunks.sum)] })
        | .broken written _ =>
          -- the file was created and `written.sum` bytes flushed before the
          -- exception; the cleanup removes it again exactly when it is empty
          if written.sum = 0 then (false, { s with assetReqs := s.assetReqs ++ [url] })
          else
            (false, { s with
              assetReqs := s.assetReqs ++ [url],
              files := s.files ++ [(get_local_path cfg url, .asset written.sum)] })
      else (false, { s with assetReqs := s.assetReqs ++ [url] })
    | .raiseOnGet => (false, { s with assetReqs := s.assetReqs ++ [url] })

/-- The `process_asset_link` helper inside `process_page`: falsy attributes are
left alone; otherwise the attribute is resolved against the page URL
(a `urljoin` `ValueError` propagates: `.error`), downloaded, and rewritten to
the relative local path on success or to the resolved absolute URL on
failure. -/
def process_asset_link (cfg : SCfg) (net : String → NetResult) (pageUrl attrVal : String)
    (s : CState) : Except CState (String × CState) :=
  if attrVal = "" then .ok (attrVal, s)
  else if ¬ urljoinOk pageUrl attrVal then .error s
  else
    let full := urljoin pageUrl attrVal
    let (ok, s') := download_to_local cfg net full s
    .ok (if ok then get_relative_path cfg pageUrl full else full, s')

/-- One of the three `find_all` rewrite loops over asset attributes. -/
def assetLoop (cfg : SCfg) (net : String → NetResult) (pageUrl : String) :
    List String → CState → Except CState (List String × CState)
  | [], s => .ok ([], s)
  | a :: rest, s =>
    match process_asset_link cfg net pageUrl a s with
    | .error sE => .error sE
    | .ok (a', s') =>
      match assetLoop cfg net pageUrl rest s' with
      | .error sE => .error sE
      | .ok (rest', s'') => .ok (a' :: rest', s'')

/-- The `a[href]` loop of `process_page` (only entered when
`current_depth < max_depth`): resolve, strip the fragment, and for
same-domain targets rewrite the in-memory attribute and recurse. A raise from
`urljoin` or `is_valid_url` aborts the loop (the page file is already
persisted at this point). The rewritten href list is returned for
transparency; the source discards the mutated soup. -/
def anchorLoop (cfg : SCfg) (recurse : String → CState → CState) (pageUrl : String) :
    List String → CState → List String × CState
  | [], s => ([], s)
  | a :: rest, s =>
    if ¬ urljoinOk pageUrl a then (a :: rest, s)
    else if ¬(parses cfg.start_url ∧ parses (stripFragment (urljoin pageUrl a))) then
      (a :: rest, s)
    else if is_valid_url cfg (stripFragment (urljoin pageUrl a)) then
      let s' := recurse (stripFragment (urljoin pageUrl a)) s
      (get_relative_path cfg pageUrl (stripFragment (urljoin pageUrl a))
          :: (anchorLoop cfg recurse pageUrl rest s').1,
        (anchorLoop cfg recurse pageUrl rest s').2)
    else
      (a :: (anchorLoop cfg recurse pageUrl rest s).1,
        (anchorLoop cfg recurse pageUrl rest s).2)

/-- `WebsiteDownloader.process_page`. `web url = none` models a page request
whose `GET` or `raise_for_status` fails; `fuel` only bounds the recursion
depth of the shallow embedding (the source recursion terminates because the
depth grows strictly, so any `fuel > max_depth` is exact). -/
def process_page (cfg : SCfg) (net : String → NetResult) (web : String → Option Doc) :
    Nat → String → Nat → CState → CState
  | 0, _, _, s => s
  | fuel + 1, url, depth, s =>
    if depth > cfg.max_depth then s
    else if url ∈ s.visited then s
    else
      let s := { s with visited := s.visited ++ [url] }
      let lp := get_local_path cfg url
      let s := { s with pageReqs := s.pageReqs ++ [(url, depth)] }
      match web url with
      | none => s
      | some doc =>
        match assetLoop cfg net url doc.cssLinks s with
        | .error sE => sE
        | .ok (links', s) =>
          match assetLoop cfg net url doc.scripts s with
          | .error sE => sE
          | .ok (scripts', s) =>
            match assetLoop cfg net url doc.imgs s with
            | .error sE => sE
            | .ok (imgs', s) =>
              let s := { s with
                files := s.files ++ [(lp, .page ⟨links', scripts', imgs', doc.anchors⟩)] }
              if depth < cfg.max_depth then
                (anchorLoop cfg (fun u st => process_page cfg net web fuel u (depth + 1) st)
                  url doc.anchors s).2
              else s

/-- `WebsiteDownloader.run`: crawl from the configured start URL at depth 0. -/
def crawl (cfg : SCfg) (net : String → NetResult) (web : String → Option Doc)
    (fuel : Nat) : CState :=
  process_page cfg net web fuel cfg.start_url 0 initState

/-! ## Render-mode downloader (`download_site_playwright.py`) -/

/-- Configuration of `PlaywrightDownloader.__init__`:
`base_domain` is `urlparse(start_url).netloc`. -/
structure PwCfg where
  output_dir : String
  base_domain : String
deriving Repr, DecidableEq

/-- The `safe_query` computation of `PlaywrightDownloader.get_local_path`:
`query.replace('?','_').replace('&','_').replace('=','-')`. -/
def pw_safe_query (q : String) : String :=
  strMap (fun c =>
    if c = '?' then '_' else if c = '&' then '_' else if c = '=' then '-' else c) q

/-- The query-folding step of `PlaywrightDownloader.get_local_path`: a
nonempty query is sanitized and inserted in front of the extension. -/
def pw_fold_query (path : String) (q : String) : String :=
  if q ≠ "" then
    if (splitext path).2 ≠ "" then
      (splitext path).1 ++ "_" ++ pw_safe_query q ++ (splitext path).2
    else path ++ "_" ++ pw_safe_query q
  else path

/-- `PlaywrightDownloader.get_local_path`: origin resources live directly
under the output root, foreign ones under `_external/{domain}/`; a query
string is sanitized and folded into the filename. The `except` branch
(reachable only through `urlparse` raising) yields the fixed fallback. -/
def pw_get_local_path (cfg : PwCfg) (url : String) : String :=
  if ¬ parses url then pathJoin cfg.output_dir ["_external", "unknown", "error.html"]
  else
    let p := urlparseCore url
    let domain := sanitizeDomain p.netloc
    let path := pw_fold_query (localPathPart p.path) p.query
    if domain = sanitizeDomain cfg.base_domain then
      pathJoin cfg.output_dir [path]
    else
      pathJoin cfg.output_dir ["_external", domain, path]

/-- A network response delivered to the `page.on("response", ...)` handler:
`body = none` models `response.body()` raising. -/
structure PwResponse where
  url : String
  status : Nat
  body : Option (List Nat)
deriving Repr, DecidableEq

/-- Mutable state of one `PlaywrightDownloader` run. -/
structure PwState where
  downloaded_resources : List String
  files : List (String × Nat)
deriving Repr, DecidableEq

/-- `os.path.exists` against the render run's filesystem. -/
def pwFileExists (s : PwState) (p : String) : Bool :=
  s.files.any (·.1 = p)

/-- `PlaywrightDownloader.save_resource`: guard on status and scheme, dedup on
`downloaded_resources` (the URL is inserted before the exists check and the
write), then write the body bytes; a failing `response.body()` is only
logged — the URL stays in the set and no file appears. -/
def save_resource (cfg : PwCfg) (r : PwResponse) (s : PwState) : PwState :=
  if r.status ≠ 200 then s
  else if ¬(strStarts r.url "http://" ∨ strStarts r.url "https://") then s
  else if strStarts r.url "data:" then s
  else if r.url ∈ s.downloaded_resources then s
  else
    let s := { s with downloaded_resources := s.downloaded_resources ++ [r.url] }
    let lp := pw_get_local_path cfg r.url
    if pwFileExists s lp then s
    else
      match r.body with
      | some content => { s with files := s.files ++ [(lp, content.length)] }
      | none => s

/-- One attribute rewrite of `PlaywrightDownloader.rewrite_html_links`:
skip `data:` (and for `link`/`script` also `javascript:`) values, resolve
against the page URL, and rewrite to the relative local path exactly when the
resolved URL is in `downloaded_resources`. A `urljoin` raise propagates out
of `rewrite_html_links` (`.error`). -/
def pw_rewrite_attr (cfg : PwCfg) (dr : List String) (page_url page_dir : String)
    (checkJs : Bool) (v : String) : Except Unit String :=
  if strStarts v "data:" ∨ (checkJs ∧ strStarts v "javascript:") then .ok v
  else if ¬ urljoinOk page_url v then .error ()
  else
    let full := urljoin page_url v
    if full ∈ dr then
      .ok (relpath (pw_get_local_path cfg full) page_dir)
    else .ok v

/-- Monadic map used for the three rewrite loops. -/
def rewriteList (f : String → Except Unit String) : List String → Except Unit (List String)
  | [] => .ok []
  | a :: rest =>
    match f a with
    | .error e => .error e
    | .ok a' =>
      match rewriteList f rest with
      | .error e => .error e
      | .ok rest' => .ok (a' :: rest')

/-- `PlaywrightDownloader.rewrite_html_links` over the tag lists of a `Doc`
(anchors are not inspected in render mode). -/
def rewrite_html_links (cfg : PwCfg) (dr : List String) (doc : Doc) (page_url : String) :
    Except Unit Doc :=
  let page_dir := dirname (pw_get_local_path cfg page_url)
  match rewriteList (pw_rewrite_attr cfg dr page_url page_dir true) doc.cssLinks with
  | .error e => .error e
  | .ok links' =>
    match rewriteList (pw_rewrite_attr cfg dr page_url page_dir true) doc.scripts with
    | .error e => .error e
    | .ok scripts' =>
      match rewriteList (pw_rewrite_attr cfg dr page_url page_dir false) doc.imgs with
      | .error e => .error e
      | .ok imgs' => .ok ⟨links', scripts', imgs', doc.anchors⟩


/-! ## Helper lemmas -/

lemma isPrefixOf_head {a b : Char} {as bs l : List Char}
    (h : (a :: as).isPrefixOf l = true) (h2 : (b :: bs).isPrefixOf l = true) : a = b := by
  cases l with
  | nil => simp [List.isPrefixOf] at h
  | cons x xs =>
    simp only [List.isPrefixOf, Bool.and_eq_true, beq_iff_eq] at h h2
    exact h.1.trans h2.1.symm

lemma strStarts_http_not_data {u : String}
    (h : strStarts u "http://" = true ∨ strStarts u "https://" = true) :
    strStarts u "data:" = false := by
  have hh : "http://".data = ['h', 't', 't', 'p', ':', '/', '/'] := by decide
  have hs : "https://".data = ['h', 't', 't', 'p', 's', ':', '/', '/'] := by decide
  have hd : "data:".data = ['d', 'a', 't', 'a', ':'] := by decide
  unfold strStarts at h ⊢
  by_contra hc
  rw [Bool.not_eq_false, hd] at hc
  rcases h with h | h
  · rw [hh] at h
    exact absurd (isPrefixOf_head hc h) (by decide)
  · rw [hs] at h
    exact absurd (isPrefixOf_head hc h) (by decide)

lemma strStarts_http_ne_empty {u : String}
    (h : strStarts u "http://" = true ∨ strStarts u "https://" = true) : u ≠ "" := by
  rcases h with h | h <;> (intro he; subst he; exact absurd h (by decide))

lemma fileExists_append (s : CState) (p : String) (e : String × FsFile) :
    fileExists { s with files := s.files ++ [e] } p = (fileExists s p || (e.1 = p)) := by
  simp [fileExists, List.any_append]

/-! ## Claim C9 -/

/-- C9: `get_local_path` (static) and `get_local_path` (render) are pure
functions of the URL and the fixed configuration — two calls return the
identical path — and on an unparseable URL (one on which `urlparse` raises)
they return the fixed fallback path under the unknown bucket instead of
raising. -/
theorem c9_path_mapping_deterministic_total (cfg : SCfg) (pcfg : PwCfg) (u : String) :
    (get_local_path cfg u = get_local_path cfg u ∧
     pw_get_local_path pcfg u = pw_get_local_path pcfg u) ∧
    (parses u = false →
      get_local_path cfg u = pathJoin cfg.output_dir ["unknown_domain", "error.html"] ∧
      pw_get_local_path pcfg u = pathJoin pcfg.output_dir ["_external", "unknown", "error.html"]) := by
  refine ⟨⟨rfl, rfl⟩, fun h => ⟨?_, ?_⟩⟩ <;> simp [get_local_path, pw_get_local_path, h]

/-- Witness for C9 at the concrete unparseable URL `http://[x/y`. -/
theorem c9_path_mapping_deterministic_total_witness :
    parses "http://[x/y" = false ∧
    get_local_path ⟨"http://h/", "out", 1⟩ "http://[x/y"
      = pathJoin "out" ["unknown_domain", "error.html"] ∧
    pw_get_local_path ⟨"out", "h"⟩ "http://[x/y"
      = pathJoin "out" ["_external", "unknown", "error.html"] := by
  have hp : parses "http://[x/y" = false := by decide
  have h := c9_path_mapping_deterministic_total ⟨"http://h/", "out", 1⟩ ⟨"out", "h"⟩ "http://[x/y"
  exact ⟨hp, (h.2 hp).1, (h.2 hp).2⟩

/-! ## Claim C7 -/

/-- C7 (counterexample): `http://EXAMPLE.com/x` and origin
`http://example.com/` have hosts differing only in letter case, yet
`is_valid_url` classifies them as different domains — the netloc comparison
is case-sensitive, contradicting the claimed case-insensitive comparison. -/
theorem c7_counterexample :
    strMap Char.toLower (urlparseCore "http://EXAMPLE.com/x").netloc
      = strMap Char.toLower (urlparseCore "http://example.com/").netloc ∧
    (urlparseCore "http://EXAMPLE.com/x").netloc
      ≠ (urlparseCore "http://example.com/").netloc ∧
    is_valid_url ⟨"http://example.com/", "out", 1⟩ "http://EXAMPLE.com/x" = false := by
  refine ⟨by decide, by decide, by decide⟩

/-- C7 amended: the classifier compares the candidate's full `netloc` against
the origin's `netloc` for exact (case-sensitive) string equality; nothing but
the netloc matters — in particular the scheme is never compared: any two
candidates with equal netloc are classified identically. -/
theorem c7_amended_netloc_comparison (cfg : SCfg) (c1 c2 : String) :
    (is_valid_url cfg c1 = true ↔
      (urlparseCore c1).netloc = (urlparseCore cfg.start_url).netloc) ∧
    ((urlparseCore c1).netloc = (urlparseCore c2).netloc →
      is_valid_url cfg c1 = is_valid_url cfg c2) := by
  constructor
  · simp [is_valid_url]
  · intro h; simp [is_valid_url, h]

/-- Witness for C7 amended: an `https` and an `http` candidate on the origin
host are classified identically (scheme plays no role). -/
theorem c7_amended_netloc_comparison_witness :
    is_valid_url ⟨"http://example.com/", "out", 1⟩ "https://example.com/a"
      = is_valid_url ⟨"http://example.com/", "out", 1⟩ "http://example.com/b" :=
  (c7_amended_netloc_comparison ⟨"http://example.com/", "out", 1⟩
    "https://example.com/a" "http://example.com/b").2 (by decide)

/-! ## Claim C3 -/

/-- C3 (counterexample): the static-mode path mapper ignores the query string:
`http://h/p?a=1` and `http://h/p?a=2` share host and path, carry different
query strings, and map to the same local file path. -/
theorem c3_counterexample :
    (urlparseCore "http://h/p?a=1").query ≠ (urlparseCore "http://h/p?a=2").query ∧
    (urlparseCore "http://h/p?a=1").netloc = (urlparseCore "http://h/p?a=2").netloc ∧
    (urlparseCore "http://h/p?a=1").path = (urlparseCore "http://h/p?a=2").path ∧
    get_local_path ⟨"http://h/", "out", 1⟩ "http://h/p?a=1"
      = get_local_path ⟨"http://h/", "out", 1⟩ "http://h/p?a=2" := by
  refine ⟨by decide, by decide, by decide, by decide⟩

/-! ## Claim C1 -/

/-- C1 (counterexample): in static mode there is no attempted-URL record —
dedup relies on the downloaded file existing. A URL whose fetch fails
(HTTP 404 here) leaves no file, so a second reference triggers a second
network request: the asset request log holds the same URL twice, refuting
"at most one network request per URL". -/
theorem c1_counterexample :
    (let cfg : SCfg := ⟨"http://h/", "out", 1⟩
     let net : String → NetResult := fun _ => .resp 404 (.whole [])
     let s1 := (download_to_local cfg net "http://h/a.js" initState).2
     let s2 := (download_to_local cfg net "http://h/a.js" s1).2
     s2.assetReqs) = ["http://h/a.js", "http://h/a.js"] := by decide

/-- C1 amended: in render mode every response that reaches the fetch logic
(status 200, HTTP(S) scheme) has its URL in `downloaded_resources` when
`save_resource` returns — write failures included — and a URL already in the
set makes `save_resource` a no-op. In static mode dedup is only by file
existence: after a download call returns `True`, a repeated call performs no
further state change (no new request); a failed URL is not recorded anywhere
and may be re-fetched. -/
theorem c1_amended_dedup (pcfg : PwCfg) (r : PwResponse) (ps : PwState)
    (cfg : SCfg) (net : String → NetResult) (u : String) (s s' : CState) :
    (r.status = 200 →
      (strStarts r.url "http://" = true ∨ strStarts r.url "https://" = true) →
      r.url ∈ (save_resource pcfg r ps).downloaded_resources) ∧
    (r.url ∈ ps.downloaded_resources → save_resource pcfg r ps = ps) ∧
    (download_to_local cfg net u s = (true, s') →
      download_to_local cfg net u s' = (true, s')) := by
  refine ⟨?_, ?_, ?_⟩
  · intro h200 hhttp
    have hdata := strStarts_http_not_data hhttp
    unfold save_resource
    rw [if_neg (by simp [h200]), if_neg (by rcases hhttp with h | h <;> simp [h]),
      if_neg (by simp [hdata])]
    by_cases hmem : r.url ∈ ps.downloaded_resources
    · rw [if_pos hmem]; exact hmem
    · rw [if_neg hmem]
      dsimp only
      split
      · simp
      · split <;> simp
  · intro hmem
    unfold save_resource
    by_cases h1 : r.status ≠ 200
    · rw [if_pos h1]
    · rw [if_neg h1]
      by_cases h2 : ¬(strStarts r.url "http://" ∨ strStarts r.url "https://")
      · rw [if_pos h2]
      · rw [if_neg h2]
        by_cases h3 : strStarts r.url "data:"
        · rw [if_pos h3]
        · rw [if_neg h3, if_pos hmem]
  · intro h
    unfold download_to_local at h ⊢
    by_cases h1 : u = ""
    · rw [if_pos h1] at h; simp at h
    · rw [if_neg h1] at h ⊢
      by_cases h2 : strStarts u "data:" = true ∨
          ¬(strStarts u "http://" = true ∨ strStarts u "https://" = true)
      · rw [if_pos h2] at h; simp at h
      · rw [if_neg h2] at h ⊢
        by_cases h3 : fileExists s (get_local_path cfg u) = true
        · rw [if_pos h3] at h
          injection h with hb hs
          subst hs
          rw [if_pos h3]
        · rw [if_neg h3] at h
          rcases hnet : net u with ⟨status, body⟩ | _
          · rw [hnet] at h
            dsimp only at h
            by_cases hst : status = 200
            · rw [if_pos hst] at h
              cases body with
              | whole chunks =>
                dsimp only at h
                injection h with hb hs
                subst hs
                rw [if_pos (by simp [fileExists, List.any_append])]
              | broken written missing =>
                dsimp only at h
                split at h <;> simp at h
            · rw [if_neg hst] at h; simp at h
          · rw [hnet] at h; dsimp only at h; simp at h

/-- Witness for C1 amended at concrete inputs. -/
theorem c1_amended_dedup_witness :
    ("http://h/a.js" ∈ (save_resource ⟨"out", "h"⟩ ⟨"http://h/a.js", 200, none⟩
        ⟨[], []⟩).downloaded_resources) ∧
    (save_resource ⟨"out", "h"⟩ ⟨"http://h/b.js", 200, some [1]⟩
        ⟨["http://h/b.js"], []⟩ = ⟨["http://h/b.js"], []⟩) ∧
    (download_to_local ⟨"http://h/", "out", 1⟩ (fun _ => .resp 200 (.whole [7]))
        "http://h/c.js"
        ⟨[], [], ["http://h/c.js"], [("out/h/c.js", .asset 7)]⟩
      = (true, ⟨[], [], ["http://h/c.js"], [("out/h/c.js", .asset 7)]⟩)) := by
  refine ⟨?_, ?_, ?_⟩
  · exact (c1_amended_dedup ⟨"out", "h"⟩ ⟨"http://h/a.js", 200, none⟩ ⟨[], []⟩
      ⟨"http://h/", "out", 1⟩ (fun _ => .resp 200 (.whole [7])) "" initState initState).1
      rfl (by decide)
  · exact (c1_amended_dedup ⟨"out", "h"⟩ ⟨"http://h/b.js", 200, some [1]⟩
      ⟨["http://h/b.js"], []⟩
      ⟨"http://h/", "out", 1⟩ (fun _ => .resp 200 (.whole [7])) "" initState initState).2.1
      (by decide)
  · exact (c1_amended_dedup ⟨"out", "h"⟩ ⟨"http://h/b.js", 200, some [1]⟩ ⟨[], []⟩
      ⟨"http://h/", "out", 1⟩ (fun _ => .resp 200 (.whole [7])) "http://h/c.js"
      ⟨[], [], [], []⟩ ⟨[], [], ["http://h/c.js"], [("out/h/c.js", .asset 7)]⟩).2.2
      (by decide)

/-! ## Claim C2 -/

/-- C2 (counterexample): an interrupted transfer (5 of 12 bytes delivered)
leaves a file of size 5 at the final path — present but not fully formed —
because the code writes straight to the target and removes a failed file
only when it is empty. -/
theorem c2_counterexample :
    (let cfg : SCfg := ⟨"http://h/", "out", 1⟩
     let net : String → NetResult := fun _ => .resp 200 (.broken [5] [7])
     (download_to_local cfg net "http://h/big.bin" initState).2.files)
      = [("out/h/big.bin", .asset 5)] ∧
    NetResult.fullSize (.resp 200 (.broken [5] [7])) = 12 ∧
    (5 : Nat) ≠ 12 ∧ (5 : Nat) ≠ 0 := by
  refine ⟨by decide, by decide, by decide, by decide⟩

/-- C2 amended: a successful download (HTTP 200, complete stream) writes the
body directly to the final path — no temporary file and no rename; on an
interrupted transfer the partially written file is removed exactly when it is
empty, so a nonempty truncated file remains on disk. -/
theorem c2_amended_write_behavior (cfg : SCfg) (net : String → NetResult) (u : String)
    (s : CState)
    (hu : u ≠ "")
    (hd : strStarts u "data:" = false)
    (hh : strStarts u "http://" = true ∨ strStarts u "https://" = true)
    (hex : fileExists s (get_local_path cfg u) = false) :
    (∀ chunks, net u = .resp 200 (.whole chunks) →
      download_to_local cfg net u s =
        (true, { s with
          assetReqs := s.assetReqs ++ [u],
          files := s.files ++ [(get_local_path cfg u, .asset chunks.sum)] })) ∧
    (∀ written missing, net u = .resp 200 (.broken written missing) →
      (written.sum = 0 →
        download_to_local cfg net u s =
          (false, { s with assetReqs := s.assetReqs ++ [u] })) ∧
      (written.sum ≠ 0 →
        download_to_local cfg net u s =
          (false, { s with
            assetReqs := s.assetReqs ++ [u],
            files := s.files ++ [(get_local_path cfg u, .asset written.sum)] }))) := by
  have hguard : ¬(strStarts u "data:" = true ∨
      ¬(strStarts u "http://" = true ∨ strStarts u "https://" = true)) := by
    simp [hd, hh]
  constructor
  · intro chunks hnet
    unfold download_to_local
    rw [if_neg hu, if_neg hguard, if_neg (by simp [hex]), hnet]
    rfl
  · intro written missing hnet
    constructor <;> intro hws
    · unfold download_to_local
      rw [if_neg hu, if_neg hguard, if_neg (by simp [hex]), hnet]
      dsimp only
      rw [if_pos hws]
      rfl
    · unfold download_to_local
      rw [if_neg hu, if_neg hguard, if_neg (by simp [hex]), hnet]
      dsimp only
      rw [if_neg hws]
      rfl

/-- Witness for C2 amended: a complete and an interrupted download at
concrete inputs. -/
theorem c2_amended_write_behavior_witness :
    (download_to_local ⟨"http://h/", "out", 1⟩ (fun _ => .resp 200 (.whole [3, 4]))
        "http://h/f.css" initState
      = (true, { initState with
          assetReqs := ["http://h/f.css"],
          files := [("out/h/f.css", .asset 7)] })) ∧
    (download_to_local ⟨"http://h/", "out", 1⟩ (fun _ => .resp 200 (.broken [] [9]))
        "http://h/g.css" initState
      = (false, { initState with assetReqs := ["http://h/g.css"] })) := by
  constructor
  · have h := (c2_amended_write_behavior ⟨"http://h/", "out", 1⟩
      (fun _ => .resp 200 (.whole [3, 4])) "http://h/f.css" initState
      (by decide) (by decide) (by decide) (by decide)).1 [3, 4] rfl
    simpa using h
  · have h := ((c2_amended_write_behavior ⟨"http://h/", "out", 1⟩
      (fun _ => .resp 200 (.broken [] [9])) "http://h/g.css" initState
      (by decide) (by decide) (by decide) (by decide)).2 [] [9] rfl).1 (by decide)
    simpa using h


/-! ## Claim C8 -/

/-- C8: when an asset fetch fails with a non-200 status (e.g. HTTP 404), the
asset helper returns normally (`.ok` — the run continues), writes nothing to
the filesystem (only the request is logged), and sets the tag's attribute to
the resolved absolute URL of the asset, so the page can still load it over
the network. -/
theorem c8_asset_404 (cfg : SCfg) (net : String → NetResult) (pageUrl attr : String)
    (s : CState) (status : Nat) (body : BodyStream)
    (ha : attr ≠ "")
    (hj : urljoinOk pageUrl attr = true)
    (hh : strStarts (urljoin pageUrl attr) "http://" = true ∨
          strStarts (urljoin pageUrl attr) "https://" = true)
    (hex : fileExists s (get_local_path cfg (urljoin pageUrl attr)) = false)
    (hnet : net (urljoin pageUrl attr) = .resp status body)
    (hst : status ≠ 200) :
    process_asset_link cfg net pageUrl attr s =
      .ok (urljoin pageUrl attr,
        { s with assetReqs := s.assetReqs ++ [urljoin pageUrl attr] }) := by
  have hne := strStarts_http_ne_empty hh
  have hdata := strStarts_http_not_data hh
  have hdl : download_to_local cfg net (urljoin pageUrl attr) s =
      (false, { s with assetReqs := s.assetReqs ++ [urljoin pageUrl attr] }) := by
    unfold download_to_local
    rw [if_neg hne, if_neg (by simp [hdata, hh]), if_neg (by simp [hex]), hnet]
    dsimp only
    rw [if_neg hst]
  unfold process_asset_link
  rw [if_neg ha, if_neg (by simp [hj])]
  dsimp only
  rw [hdl]
  rfl

/-- Witness for C8: a concrete 404 asset under page `http://h/page.html`. -/
theorem c8_asset_404_witness :
    process_asset_link ⟨"http://h/", "out", 1⟩ (fun _ => .resp 404 (.whole []))
        "http://h/page.html" "http://h/missing.css" initState =
      .ok ("http://h/missing.css",
        { initState with assetReqs := ["http://h/missing.css"] }) := by
  have h := c8_asset_404 ⟨"http://h/", "out", 1⟩ (fun _ => .resp 404 (.whole []))
    "http://h/page.html" "http://h/missing.css" initState 404 (.whole [])
    (by decide) (by decide) (by decide) (by decide) rfl (by decide)
  simpa using h

/-! ## Claim C10 -/

/-- C10: in render mode a response URL enters `downloaded_resources` before
the file-exists check and before the body is written, and a failing
`response.body()` does not remove it; the rewriter tests membership in that
set, so an attribute resolving to such a URL is rewritten to a relative
local path although no file was saved at that path. -/
theorem c10_render_dangling (pcfg : PwCfg) (r : PwResponse) (ps : PwState)
    (page_url page_dir v : String)
    (h200 : r.status = 200)
    (hh : strStarts r.url "http://" = true ∨ strStarts r.url "https://" = true)
    (hmem : r.url ∉ ps.downloaded_resources)
    (hfe : pwFileExists ps (pw_get_local_path pcfg r.url) = false)
    (hbody : r.body = none)
    (hv1 : strStarts v "data:" = false)
    (hv2 : strStarts v "javascript:" = false)
    (hjoin : urljoinOk page_url v = true)
    (hres : urljoin page_url v = r.url) :
    r.url ∈ (save_resource pcfg r ps).downloaded_resources ∧
    (save_resource pcfg r ps).files = ps.files ∧
    pw_rewrite_attr pcfg (save_resource pcfg r ps).downloaded_resources
        page_url page_dir true v
      = .ok (relpath (pw_get_local_path pcfg r.url) page_dir) := by
  have hdata := strStarts_http_not_data hh
  have hsave : save_resource pcfg r ps =
      { ps with downloaded_resources := ps.downloaded_resources ++ [r.url] } := by
    unfold save_resource
    rw [if_neg (by simp [h200]), if_neg (by simp [hh]), if_neg (by simp [hdata]),
      if_neg hmem]
    dsimp only
    rw [if_neg (by simp only [Bool.not_eq_true]; exact hfe), hbody]
  refine ⟨by rw [hsave]; simp, by rw [hsave], ?_⟩
  unfold pw_rewrite_attr
  rw [if_neg (by simp [hv1, hv2]), if_neg (by simp [hjoin]), hres, hsave]
  rw [if_pos (by simp)]

/-- Witness for C10: a CSS response whose body read fails; the `link` href
referencing it is still rewritten to the (dangling) relative local path. -/
theorem c10_render_dangling_witness :
    ("http://h/style.css" ∈ (save_resource ⟨"out", "h"⟩ ⟨"http://h/style.css", 200, none⟩
        ⟨[], []⟩).downloaded_resources) ∧
    (save_resource ⟨"out", "h"⟩ ⟨"http://h/style.css", 200, none⟩ ⟨[], []⟩).files = [] ∧
    pw_rewrite_attr ⟨"out", "h"⟩
        (save_resource ⟨"out", "h"⟩ ⟨"http://h/style.css", 200, none⟩
          ⟨[], []⟩).downloaded_resources
        "http://h/" "out" true "style.css"
      = .ok (relpath (pw_get_local_path ⟨"out", "h"⟩ "http://h/style.css") "out") := by
  have h := c10_render_dangling ⟨"out", "h"⟩ ⟨"http://h/style.css", 200, none⟩ ⟨[], []⟩
    "http://h/" "out" "style.css" rfl (by decide) (by decide) (by decide) rfl
    (by decide) (by decide) (by decide) (by decide)
  exact h

/-! ## Claim C3 (amended part) -/

lemma str_append_left_cancel {a b c : String} (h : a ++ b = a ++ c) : b = c := by
  apply String.ext
  have hd := congrArg String.data h
  rw [String.data_append a b, String.data_append a c] at hd
  exact List.append_cancel_left hd

lemma str_append_right_cancel {a b c : String} (h : b ++ a = c ++ a) : b = c := by
  apply String.ext
  have hd := congrArg String.data h
  rw [String.data_append b a, String.data_append c a] at hd
  exact List.append_cancel_right hd

lemma splitext_recompose (p : String) : (splitext p).1 ++ (splitext p).2 = p := by
  unfold splitext
  dsimp only
  split
  · exact String.append_empty p
  · split
    · exact String.append_empty p
    · show String.mk _ ++ String.mk _ = p
      show String.mk (_ ++ _) = p
      rw [List.take_append_drop]

lemma strStarts_slash_iff (x : String) :
    strStarts x "/" = true ↔ x.data.head? = some '/' := by
  unfold strStarts
  have h : "/".data = ['/'] := by decide
  rw [h]
  cases x.data with
  | nil => simp [List.isPrefixOf]
  | cons c cs =>
    have h2 : (['/'].isPrefixOf (c :: cs)) = ('/' == c) := by
      show ('/' == c && ([] : List Char).isPrefixOf cs) = ('/' == c)
      rw [show ([] : List Char).isPrefixOf cs = true from by cases cs <;> rfl, Bool.and_true]
    rw [h2]
    constructor
    · intro h3
      show some c = some '/'
      exact congrArg some (beq_iff_eq.mp h3).symm
    · intro h3
      have hc : c = '/' := Option.some.inj h3
      exact beq_iff_eq.mpr hc.symm

lemma strStarts_slash_false_iff (x : String) :
    strStarts x "/" = false ↔ x.data.head? ≠ some '/' := by
  rw [Bool.eq_false_iff]
  exact not_congr (strStarts_slash_iff x)

lemma pw_fold_query_ne (P q1 q2 : String) (hq1 : q1 ≠ "") (hq2 : q2 ≠ "")
    (hs : pw_safe_query q1 ≠ pw_safe_query q2) :
    pw_fold_query P q1 ≠ pw_fold_query P q2 := by
  unfold pw_fold_query
  rw [if_pos hq1, if_pos hq2]
  by_cases hE : (splitext P).2 ≠ ""
  · rw [if_pos hE, if_pos hE]
    intro h
    exact hs (str_append_left_cancel (str_append_right_cancel h))
  · rw [if_neg hE, if_neg hE]
    intro h
    exact hs (str_append_left_cancel h)

lemma pw_fold_query_no_slash (P q : String) (hP : strStarts P "/" = false) :
    strStarts (pw_fold_query P q) "/" = false := by
  rw [strStarts_slash_false_iff] at hP ⊢
  have hPd : (splitext P).1.data ++ (splitext P).2.data = P.data := by
    rw [← String.data_append]
    exact congrArg String.data (splitext_recompose P)
  unfold pw_fold_query
  by_cases hq : q ≠ ""
  · rw [if_pos hq]
    by_cases hE : (splitext P).2 ≠ ""
    · rw [if_pos hE]
      rw [String.data_append, String.data_append, String.data_append]
      cases hB : (splitext P).1.data with
      | nil =>
        have h1 : (((([] : List Char) ++ "_".data) ++ (pw_safe_query q).data)
            ++ (splitext P).2.data).head? = some '_' := rfl
        rw [h1]
        decide
      | cons c cs =>
        have h1 : ((((c :: cs) ++ "_".data) ++ (pw_safe_query q).data)
            ++ (splitext P).2.data).head? = some c := rfl
        rw [h1]
        have hPh : P.data.head? = some c := by
          rw [← hPd, hB]; rfl
        intro hc
        exact hP (hPh.trans hc)
    · rw [if_neg hE]
      rw [String.data_append, String.data_append]
      cases hPc : P.data with
      | nil =>
        have h1 : ((([] : List Char) ++ "_".data) ++ (pw_safe_query q).data).head?
            = some '_' := rfl
        rw [h1]
        decide
      | cons c cs =>
        have h1 : (((c :: cs) ++ "_".data) ++ (pw_safe_query q).data).head?
            = some c := rfl
        rw [h1]
        intro hc
        rw [hPc] at hP
        exact hP (by rw [← hc]; rfl)
  · rw [if_neg hq]
    exact hP

lemma pathJoin_one (a x : String) : pathJoin a [x] = pathJoin2 a x := rfl

lemma pathJoin_three (a x y z : String) :
    pathJoin a [x, y, z] = pathJoin2 (pathJoin2 (pathJoin2 a x) y) z := rfl

lemma pathJoin2_no_slash (A b : String) (hb : strStarts b "/" = false) :
    pathJoin2 A b = if A = "" ∨ strEnds A "/" = true then A ++ b else A ++ "/" ++ b := by
  have hb' : ¬ (strStarts b "/" = true) := by simp [hb]
  unfold pathJoin2
  rw [if_neg hb']

lemma pathJoin2_ne (A : String) {b1 b2 : String} (hb1 : strStarts b1 "/" = false)
    (hb2 : strStarts b2 "/" = false) (hne : b1 ≠ b2) :
    pathJoin2 A b1 ≠ pathJoin2 A b2 := by
  rw [pathJoin2_no_slash A b1 hb1, pathJoin2_no_slash A b2 hb2]
  by_cases hA : A = "" ∨ strEnds A "/" = true
  · simp only [if_pos hA]
    intro h
    exact hne (str_append_left_cancel h)
  · simp only [if_neg hA]
    intro h
    exact hne (str_append_left_cancel h)

/-- C3 amended: the render-mode mapper folds the sanitized query into the
filename, so two parseable URLs sharing netloc and path whose nonempty
queries sanitize differently map to distinct local paths (provided the
normalized path segment is relative, i.e. does not begin with a slash); the
static-mode mapper discards the query, so the distinctness claim fails there
(see the counterexample). -/
theorem c3_amended_render_query_distinct (cfg : PwCfg) (u1 u2 : String)
    (h1 : parses u1 = true) (h2 : parses u2 = true)
    (hn : (urlparseCore u1).netloc = (urlparseCore u2).netloc)
    (hp : (urlparseCore u1).path = (urlparseCore u2).path)
    (hq1 : (urlparseCore u1).query ≠ "") (hq2 : (urlparseCore u2).query ≠ "")
    (hs : pw_safe_query (urlparseCore u1).query ≠ pw_safe_query (urlparseCore u2).query)
    (hsl : strStarts (localPathPart (urlparseCore u1).path) "/" = false) :
    pw_get_local_path cfg u1 ≠ pw_get_local_path cfg u2 := by
  have hpu1 : ¬ (¬ parses u1 = true) := by simp [h1]
  have hpu2 : ¬ (¬ parses u2 = true) := by simp [h2]
  unfold pw_get_local_path
  rw [if_neg hpu1, if_neg hpu2]
  dsimp only
  rw [← hn, ← hp]
  have hB1 := pw_fold_query_no_slash (localPathPart (urlparseCore u1).path)
    (urlparseCore u1).query hsl
  have hB2 := pw_fold_query_no_slash (localPathPart (urlparseCore u1).path)
    (urlparseCore u2).query hsl
  have hBne := pw_fold_query_ne (localPathPart (urlparseCore u1).path)
    (urlparseCore u1).query (urlparseCore u2).query hq1 hq2 hs
  by_cases hdom : sanitizeDomain (urlparseCore u1).netloc = sanitizeDomain cfg.base_domain
  · simp only [if_pos hdom, pathJoin_one]
    exact pathJoin2_ne _ hB1 hB2 hBne
  · simp only [if_neg hdom, pathJoin_three]
    exact pathJoin2_ne _ hB1 hB2 hBne

/-- Witness for C3 amended: two query variants of the same render-mode asset
URL map to different files. -/
theorem c3_amended_render_query_distinct_witness :
    pw_get_local_path ⟨"out", "h"⟩ "http://h/lib.js?v=1"
      ≠ pw_get_local_path ⟨"out", "h"⟩ "http://h/lib.js?v=2" :=
  c3_amended_render_query_distinct ⟨"out", "h"⟩ "http://h/lib.js?v=1" "http://h/lib.js?v=2"
    (by decide) (by decide) (by decide) (by decide) (by decide) (by decide)
    (by decide) (by decide)


/-! ## Crawl invariants (claims C4, C5, C6) -/

/-- A hyperlink edge of the crawled web: `v` is the fragment-stripped
resolution of an `a[href]` attribute of the document served at `u`. -/
def crawlEdge (web : String → Option Doc) (u v : String) : Prop :=
  ∃ d, web u = some d ∧ ∃ a ∈ d.anchors, v = stripFragment (urljoin u a)

/-- `ReachLe web start n u`: `u` is reachable from `start` by a chain of at
most `n` hyperlink edges. -/
inductive ReachLe (web : String → Option Doc) (start : String) : Nat → String → Prop where
  | refl (n : Nat) : ReachLe web start n start
  | step {n : Nat} {u v : String} (h : ReachLe web start n u)
      (e : crawlEdge web u v) : ReachLe web start (n + 1) v

/-- The run invariant of the static crawl: every page `GET` was issued at a
depth within the bound, for a URL reachable by that many hyperlink steps,
and (except for the start URL) only for same-domain URLs; and every page
file on disk keeps the anchors of its source document verbatim. -/
def CrawlInv (cfg : SCfg) (web : String → Option Doc) (s : CState) : Prop :=
  (∀ p ∈ s.pageReqs, p.2 ≤ cfg.max_depth ∧ ReachLe web cfg.start_url p.2 p.1 ∧
    (p.1 = cfg.start_url ∨ is_valid_url cfg p.1 = true)) ∧
  (∀ pr ∈ s.files, ∀ d, pr.2 = FsFile.page d →
    ∃ u doc, web u = some doc ∧ pr.1 = get_local_path cfg u ∧ d.anchors = doc.anchors)

lemma ReachLe.mono {web : String → Option Doc} {start : String} {n : Nat} {u : String}
    (h : ReachLe web start n u) : ReachLe web start (n + 1) u := by
  induction h with
  | refl n => exact .refl (n + 1)
  | step h e ih => exact .step ih e

/-- The state a fallible computation left behind, raise or no raise. -/
def exState {α : Type} : Except CState (α × CState) → CState
  | .error s => s
  | .ok (_, s) => s

lemma dtl_state (cfg : SCfg) (net : String → NetResult) (u : String) (s : CState) :
    ((download_to_local cfg net u s).2).visited = s.visited ∧
    ((download_to_local cfg net u s).2).pageReqs = s.pageReqs ∧
    ∃ ext, ((download_to_local cfg net u s).2).files = s.files ++ ext ∧
      ∀ e ∈ ext, ∃ n, e.2 = FsFile.asset n := by
  unfold download_to_local
  repeat' split
  all_goals
    first
      | exact ⟨rfl, rfl, [], (List.append_nil _).symm,
          fun e he => absurd he (List.not_mem_nil e)⟩
      | exact ⟨rfl, rfl, [(get_local_path cfg u, FsFile.asset _)], rfl,
          fun e he => by obtain rfl := List.mem_singleton.mp he; exact ⟨_, rfl⟩⟩

lemma pal_state (cfg : SCfg) (net : String → NetResult) (pageUrl a : String) (s : CState) :
    (exState (process_asset_link cfg net pageUrl a s)).visited = s.visited ∧
    (exState (process_asset_link cfg net pageUrl a s)).pageReqs = s.pageReqs ∧
    ∃ ext, (exState (process_asset_link cfg net pageUrl a s)).files = s.files ++ ext ∧
      ∀ e ∈ ext, ∃ n, e.2 = FsFile.asset n := by
  unfold process_asset_link
  split
  · exact ⟨rfl, rfl, [], (List.append_nil _).symm,
      fun e he => absurd he (List.not_mem_nil e)⟩
  · split
    · exact ⟨rfl, rfl, [], (List.append_nil _).symm,
        fun e he => absurd he (List.not_mem_nil e)⟩
    · dsimp only
      obtain ⟨hv, hp, ext, hf, hext⟩ := dtl_state cfg net (urljoin pageUrl a) s
      rcases hdl : download_to_local cfg net (urljoin pageUrl a) s with ⟨ok, s'⟩
      rw [hdl] at hv hp hf
      exact ⟨hv, hp, ext, hf, hext⟩

lemma assetLoop_state (cfg : SCfg) (net : String → NetResult) (pageUrl : String) :
    ∀ (l : List String) (s : CState),
      (exState (assetLoop cfg net pageUrl l s)).visited = s.visited ∧
      (exState (assetLoop cfg net pageUrl l s)).pageReqs = s.pageReqs ∧
      ∃ ext, (exState (assetLoop cfg net pageUrl l s)).files = s.files ++ ext ∧
        ∀ e ∈ ext, ∃ n, e.2 = FsFile.asset n := by
  intro l
  induction l with
  | nil =>
    intro s
    exact ⟨rfl, rfl, [], (List.append_nil _).symm,
      fun e he => absurd he (List.not_mem_nil e)⟩
  | cons a rest ih =>
    intro s
    unfold assetLoop
    obtain ⟨hv, hp, ext, hf, hext⟩ := pal_state cfg net pageUrl a s
    rcases hpal : process_asset_link cfg net pageUrl a s with sE | ⟨a', s'⟩ <;>
      rw [hpal] at hv hp hf
    · exact ⟨hv, hp, ext, hf, hext⟩
    · obtain ⟨hv2, hp2, ext2, hf2, hext2⟩ := ih s'
      have hcomb : ∀ e ∈ ext ++ ext2, ∃ n, e.2 = FsFile.asset n := by
        intro e he
        rcases List.mem_append.mp he with h | h
        exacts [hext e h, hext2 e h]
      dsimp only
      rcases hrec : assetLoop cfg net pageUrl rest s' with sE2 | ⟨rest', s''⟩ <;>
        rw [hrec] at hv2 hp2 hf2 <;>
        exact ⟨hv2.trans hv, hp2.trans hp, ext ++ ext2,
          by dsimp only [exState] at hf hf2 ⊢; rw [hf2, hf, List.append_assoc], hcomb⟩

lemma CrawlInv_transfer {cfg : SCfg} {web : String → Option Doc} {s s' : CState}
    (h : CrawlInv cfg web s)
    (hp : s'.pageReqs = s.pageReqs)
    (hf : ∃ ext, s'.files = s.files ++ ext ∧ ∀ e ∈ ext, ∃ n, e.2 = FsFile.asset n) :
    CrawlInv cfg web s' := by
  obtain ⟨ext, hfe, hext⟩ := hf
  constructor
  · intro p hmem
    exact h.1 p (hp ▸ hmem)
  · intro pr hmem d hd
    rw [hfe] at hmem
    rcases List.mem_append.mp hmem with hm | hm
    · exact h.2 pr hm d hd
    · obtain ⟨n, hn⟩ := hext pr hm
      rw [hd] at hn
      exact absurd hn (by simp)

lemma anchorLoop_inv (cfg : SCfg) (recurse : String → CState → CState)
    (web : String → Option Doc) (url : String) (d : Doc)
    (P : CState → Prop)
    (hweb : web url = some d)
    (hrec : ∀ v s', crawlEdge web url v → is_valid_url cfg v = true →
      P s' → P (recurse v s')) :
    ∀ (l : List String) (s : CState), (∀ a ∈ l, a ∈ d.anchors) → P s →
      P (anchorLoop cfg recurse url l s).2 := by
  intro l
  induction l with
  | nil => intro s _ hs; exact hs
  | cons a rest ih =>
    intro s hl hs
    unfold anchorLoop
    by_cases h1 : ¬ urljoinOk url a = true
    · rw [if_pos h1]; exact hs
    · rw [if_neg h1]
      by_cases h2 : ¬(parses cfg.start_url = true ∧
          parses (stripFragment (urljoin url a)) = true)
      · rw [if_pos h2]; exact hs
      · rw [if_neg h2]
        by_cases h3 : is_valid_url cfg (stripFragment (urljoin url a)) = true
        · rw [if_pos h3]
          dsimp only
          have hedge : crawlEdge web url (stripFragment (urljoin url a)) :=
            ⟨d, hweb, a, hl a (List.mem_cons_self a rest), rfl⟩
          exact ih _ (fun x hx => hl x (List.mem_cons_of_mem a hx))
            (hrec _ s hedge h3 hs)
        · rw [if_neg h3]
          dsimp only
          exact ih s (fun x hx => hl x (List.mem_cons_of_mem a hx)) hs


lemma process_page_inv (cfg : SCfg) (net : String → NetResult) (web : String → Option Doc) :
    ∀ (fuel : Nat) (url : String) (depth : Nat) (s : CState),
      ReachLe web cfg.start_url depth url →
      (url = cfg.start_url ∨ is_valid_url cfg url = true) →
      CrawlInv cfg web s →
      CrawlInv cfg web (process_page cfg net web fuel url depth s) := by
  intro fuel
  induction fuel with
  | zero => intro url depth s _ _ hs; exact hs
  | succ fuel ih =>
    intro url depth s hreach hvalid hs
    unfold process_page
    by_cases h1 : depth > cfg.max_depth
    · rw [if_pos h1]; exact hs
    rw [if_neg h1]
    by_cases h2 : url ∈ s.visited
    · rw [if_pos h2]; exact hs
    rw [if_neg h2]
    dsimp only
    have hs2 : CrawlInv cfg web
        { s with visited := s.visited ++ [url],
                 pageReqs := s.pageReqs ++ [(url, depth)] } := by
      constructor
      · intro p hp
        rcases List.mem_append.mp hp with hm | hm
        · exact hs.1 p hm
        · obtain rfl := List.mem_singleton.mp hm
          exact ⟨Nat.le_of_not_lt h1, hreach, hvalid⟩
      · exact hs.2
    cases hweb : web url with
    | none => exact hs2
    | some doc =>
      dsimp only
      obtain ⟨hv1, hp1, ext1, hf1, hext1⟩ := assetLoop_state cfg net url doc.cssLinks
        { s with visited := s.visited ++ [url],
                 pageReqs := s.pageReqs ++ [(url, depth)] }
      rcases hA1 : assetLoop cfg net url doc.cssLinks
          { s with visited := s.visited ++ [url],
                   pageReqs := s.pageReqs ++ [(url, depth)] } with sE1 | ⟨links', s3⟩ <;>
        rw [hA1] at hp1 hf1
      · exact CrawlInv_transfer hs2 hp1 ⟨ext1, hf1, hext1⟩
      have hs3 : CrawlInv cfg web s3 := CrawlInv_transfer hs2 hp1 ⟨ext1, hf1, hext1⟩
      dsimp only
      obtain ⟨hv2, hp2, ext2, hf2, hext2⟩ := assetLoop_state cfg net url doc.scripts s3
      rcases hA2 : assetLoop cfg net url doc.scripts s3 with sE2 | ⟨scripts', s4⟩ <;>
        rw [hA2] at hp2 hf2
      · exact CrawlInv_transfer hs3 hp2 ⟨ext2, hf2, hext2⟩
      have hs4 : CrawlInv cfg web s4 := CrawlInv_transfer hs3 hp2 ⟨ext2, hf2, hext2⟩
      dsimp only
      obtain ⟨hv3, hp3, ext3, hf3, hext3⟩ := assetLoop_state cfg net url doc.imgs s4
      rcases hA3 : assetLoop cfg net url doc.imgs s4 with sE3 | ⟨imgs', s5⟩ <;>
        rw [hA3] at hp3 hf3
      · exact CrawlInv_transfer hs4 hp3 ⟨ext3, hf3, hext3⟩
      have hs5 : CrawlInv cfg web s5 := CrawlInv_transfer hs4 hp3 ⟨ext3, hf3, hext3⟩
      dsimp only
      have hs6 : CrawlInv cfg web
          { s5 with files := s5.files ++ [(get_local_path cfg url,
              FsFile.page ⟨links', scripts', imgs', doc.anchors⟩)] } := by
        constructor
        · exact fun p hp => hs5.1 p hp
        · intro pr hpr d hd
          rcases List.mem_append.mp hpr with hm | hm
          · exact hs5.2 pr hm d hd
          · obtain rfl := List.mem_singleton.mp hm
            refine ⟨url, doc, hweb, rfl, ?_⟩
            injection hd with h
            rw [← h]
      by_cases h3 : depth < cfg.max_depth
      · rw [if_pos h3]
        exact anchorLoop_inv cfg _ web url doc (CrawlInv cfg web) hweb
          (fun v s' he hva hin =>
            ih v (depth + 1) s' (ReachLe.step hreach he) (Or.inr hva) hin)
          doc.anchors _ (fun a ha => ha) hs6
      · rw [if_neg h3]
        exact hs6

/-! ## Claim C4 -/

/-- C4: depth bound. Every page `GET` issued during a crawl was issued at a
depth `k ≤ max_depth` for a URL reachable from the start URL by a chain of at
most `k` hyperlink edges — so a page reachable only by chains longer than
`max_depth` is never fetched as a page. The recorded depth also shows the
driver processes a page only at `depth ≤ max_depth` (recursion happens only
strictly below the bound, at `depth + 1 ≤ max_depth`). -/
theorem c4_depth_bound (cfg : SCfg) (net : String → NetResult)
    (web : String → Option Doc) (fuel : Nat) :
    ∀ p ∈ (crawl cfg net web fuel).pageReqs,
      p.2 ≤ cfg.max_depth ∧ ReachLe web cfg.start_url p.2 p.1 := by
  intro p hp
  have hinit : CrawlInv cfg web initState :=
    ⟨fun p hp => absurd hp (List.not_mem_nil p), fun pr hpr => absurd hpr (List.not_mem_nil pr)⟩
  have hinv := process_page_inv cfg net web fuel cfg.start_url 0 initState
    (ReachLe.refl 0) (Or.inl rfl) hinit
  exact ⟨(hinv.1 p hp).1, (hinv.1 p hp).2.1⟩

/-- Witness for C4: a two-page site crawled with `max_depth = 1`; the page
fetched at depth 1 is reachable in at most one hyperlink step. -/
theorem c4_depth_bound_witness :
    (("http://h/b", 1) : String × Nat).2 ≤ 1 ∧
    ReachLe (fun u => if u = "http://h/" then some ⟨[], [], [], ["/b"]⟩
        else if u = "http://h/b" then some ⟨[], [], [], []⟩ else none)
      "http://h/" 1 "http://h/b" :=
  c4_depth_bound ⟨"http://h/", "out", 1⟩ (fun _ => .resp 200 (.whole [1]))
    (fun u => if u = "http://h/" then some ⟨[], [], [], ["/b"]⟩
      else if u = "http://h/b" then some ⟨[], [], [], []⟩ else none)
    3 ("http://h/b", 1) (by decide)

/-! ## Claim C6 -/

/-- C6: domain scoping. Every page request of a crawl is either the start URL
itself or a URL the classifier accepted as same-domain — a hyperlink whose
resolved absolute URL is not same-domain is never recursed into. Moreover
every page file persisted on disk carries the anchors of its source document
verbatim (the href rewriting happens only after the file is written), so a
non-same-domain hyperlink's attribute value is untouched in the output
markup. -/
theorem c6_domain_scoping (cfg : SCfg) (net : String → NetResult)
    (web : String → Option Doc) (fuel : Nat) :
    (∀ p ∈ (crawl cfg net web fuel).pageReqs,
      p.1 = cfg.start_url ∨ is_valid_url cfg p.1 = true) ∧
    (∀ pr ∈ (crawl cfg net web fuel).files, ∀ d, pr.2 = FsFile.page d →
      ∃ u doc, web u = some doc ∧ pr.1 = get_local_path cfg u ∧
        d.anchors = doc.anchors) := by
  have hinit : CrawlInv cfg web initState :=
    ⟨fun p hp => absurd hp (List.not_mem_nil p), fun pr hpr => absurd hpr (List.not_mem_nil pr)⟩
  have hinv := process_page_inv cfg net web fuel cfg.start_url 0 initState
    (ReachLe.refl 0) (Or.inl rfl) hinit
  exact ⟨fun p hp => (hinv.1 p hp).2.2, hinv.2⟩

/-- Witness for C6: a site whose root links to an external domain; the root
request is the start URL, and the persisted root page keeps its anchors
(including the external one) unchanged. -/
theorem c6_domain_scoping_witness :
    ((("http://h/", 0) : String × Nat).1 = "http://h/" ∨
      is_valid_url ⟨"http://h/", "out", 1⟩ (("http://h/", 0) : String × Nat).1 = true) ∧
    (∃ u doc,
      (fun v => if v = "http://h/"
          then some (⟨[], [], [], ["http://other.com/x", "/b"]⟩ : Doc) else none) u
        = some doc ∧
      (("out/h/index.html",
        FsFile.page ⟨[], [], [], ["http://other.com/x", "/b"]⟩) : String × FsFile).1
        = get_local_path ⟨"http://h/", "out", 1⟩ u ∧
      (⟨[], [], [], ["http://other.com/x", "/b"]⟩ : Doc).anchors = doc.anchors) := by
  have h := c6_domain_scoping ⟨"http://h/", "out", 1⟩ (fun _ => .resp 200 (.whole [1]))
    (fun v => if v = "http://h/"
      then some (⟨[], [], [], ["http://other.com/x", "/b"]⟩ : Doc) else none) 2
  constructor
  · exact h.1 ("http://h/", 0) (by decide)
  · exact h.2 ("out/h/index.html",
      FsFile.page ⟨[], [], [], ["http://other.com/x", "/b"]⟩) (by decide)
      ⟨[], [], [], ["http://other.com/x", "/b"]⟩ rfl


/-! ## Claim C5 -/

/-- C5 (counterexample): a crawl with `max_depth = 0` processes the start page
at depth equal to the bound. The persisted markup keeps the same-domain
hyperlink `/b` verbatim — it is not rewritten to the local-style relative
path `b` that `get_relative_path` would produce — refuting the claim that
hyperlinks are still rewritten at the depth boundary. -/
theorem c5_counterexample :
    (crawl ⟨"http://h/", "out", 0⟩ (fun _ => .resp 200 (.whole [1]))
        (fun u => if u = "http://h/" then some ⟨[], [], [], ["/b"]⟩ else none) 1).files
      = [("out/h/index.html", .page ⟨[], [], [], ["/b"]⟩)] ∧
    is_valid_url ⟨"http://h/", "out", 0⟩
      (stripFragment (urljoin "http://h/" "/b")) = true ∧
    get_relative_path ⟨"http://h/", "out", 0⟩ "http://h/"
      (stripFragment (urljoin "http://h/" "/b")) = "b" ∧
    "/b" ≠ "b" := by
  refine ⟨by decide, by decide, by decide, by decide⟩

/-- C5 amended: when a page is processed at `depth = max_depth`, its
same-domain hyperlinks are neither recursed into nor rewritten: the run ends
that branch by persisting the page with the document's anchor attributes
unchanged, and performs no further page request beyond the one for the page
itself. (Hyperlink rewriting happens only for `depth < max_depth`, and even
then only in memory after the file is written.) -/
theorem c5_amended_boundary_no_rewrite (cfg : SCfg) (net : String → NetResult)
    (web : String → Option Doc) (fuel : Nat) (url : String) (s : CState) (doc : Doc)
    (links' scripts' imgs' : List String) (s3 s4 s5 : CState)
    (hv : url ∉ s.visited)
    (hw : web url = some doc)
    (h1 : assetLoop cfg net url doc.cssLinks
      { s with visited := s.visited ++ [url],
               pageReqs := s.pageReqs ++ [(url, cfg.max_depth)] } = .ok (links', s3))
    (h2 : assetLoop cfg net url doc.scripts s3 = .ok (scripts', s4))
    (h3 : assetLoop cfg net url doc.imgs s4 = .ok (imgs', s5)) :
    process_page cfg net web (fuel + 1) url cfg.max_depth s =
      { s5 with files := s5.files ++ [(get_local_path cfg url,
          FsFile.page ⟨links', scripts', imgs', doc.anchors⟩)] } := by
  unfold process_page
  rw [if_neg (lt_irrefl cfg.max_depth), if_neg hv]
  dsimp only
  rw [hw]
  dsimp only
  rw [h1]
  dsimp only
  rw [h2]
  dsimp only
  rw [h3]
  dsimp only
  rw [if_neg (lt_irrefl cfg.max_depth)]

/-- Witness for C5 amended: concrete one-page site at the depth boundary. -/
theorem c5_amended_boundary_no_rewrite_witness :
    process_page ⟨"http://h/", "out", 0⟩ (fun _ => .resp 200 (.whole [1]))
        (fun u => if u = "http://h/" then some ⟨[], [], [], ["/b"]⟩ else none)
        1 "http://h/" 0 initState =
      { initState with
        visited := ["http://h/"],
        pageReqs := [("http://h/", 0)],
        files := [("out/h/index.html", FsFile.page ⟨[], [], [], ["/b"]⟩)] } := by
  have h := c5_amended_boundary_no_rewrite ⟨"http://h/", "out", 0⟩
    (fun _ => .resp 200 (.whole [1]))
    (fun u => if u = "http://h/" then some ⟨[], [], [], ["/b"]⟩ else none)
    0 "http://h/" initState ⟨[], [], [], ["/b"]⟩ [] [] []
    { initState with visited := ["http://h/"], pageReqs := [("http://h/", 0)] }
    { initState with visited := ["http://h/"], pageReqs := [("http://h/", 0)] }
    { initState with visited := ["http://h/"], pageReqs := [("http://h/", 0)] }
    (by decide) (by decide) rfl rfl rfl
  simpa using h


end DlSite
